import Mathlib

/-!
Verification of the medical-records question-answering pipeline.

The Python sources (app/agents/router.py, retriever.py, context_builder.py,
citation.py, answer.py and app/graph/workflow.py) are shallowly embedded
below.  Modelling conventions:

* Python dictionaries produced by the agents become Lean structures; a key
  that may be missing (accessed with dict.get) becomes an Option field.
* Python floats are modelled as exact rationals; round(x, 2) is modelled as
  exact decimal rounding with round-half-to-even.
* Python strings are modelled as Lean strings; the character-level helpers
  (strip, upper, lower, replace, split) mirror the CPython semantics for
  ASCII text, the only alphabet the program manipulates.
* A Python function that can raise becomes an Option-valued function; a
  caught exception is the none case of an argument or result.
* The language-model backend and the search backends are opaque
  collaborators; their responses are universally quantified data.
-/

/-- The six ASCII whitespace characters recognised by Python str.strip. -/
def pyIsWs (c : Char) : Bool :=
  c == ' ' || c == '\t' || c == '\n' || c == '\x0d' || c == '\x0b' || c == '\x0c'

/-- Python str.strip on a character list: drop whitespace from both ends. -/
def pyStripL (l : List Char) : List Char :=
  ((l.dropWhile pyIsWs).reverse.dropWhile pyIsWs).reverse

/-- ASCII lower-case test, as used by Python str.islower on single letters. -/
def pyIsLower (c : Char) : Bool :=
  'a' ≤ c && c ≤ 'z'

/-- ASCII upper-casing of one character (Python str.upper, ASCII range). -/
def pyToUpperChar (c : Char) : Char :=
  if c = 'a' then 'A' else if c = 'b' then 'B' else if c = 'c' then 'C'
  else if c = 'd' then 'D' else if c = 'e' then 'E' else if c = 'f' then 'F'
  else if c = 'g' then 'G' else if c = 'h' then 'H' else if c = 'i' then 'I'
  else if c = 'j' then 'J' else if c = 'k' then 'K' else if c = 'l' then 'L'
  else if c = 'm' then 'M' else if c = 'n' then 'N' else if c = 'o' then 'O'
  else if c = 'p' then 'P' else if c = 'q' then 'Q' else if c = 'r' then 'R'
  else if c = 's' then 'S' else if c = 't' then 'T' else if c = 'u' then 'U'
  else if c = 'v' then 'V' else if c = 'w' then 'W' else if c = 'x' then 'X'
  else if c = 'y' then 'Y' else if c = 'z' then 'Z' else c

/-- ASCII lower-casing of one character (Python str.lower, ASCII range). -/
def pyToLowerChar (c : Char) : Char :=
  if c = 'A' then 'a' else if c = 'B' then 'b' else if c = 'C' then 'c'
  else if c = 'D' then 'd' else if c = 'E' then 'e' else if c = 'F' then 'f'
  else if c = 'G' then 'g' else if c = 'H' then 'h' else if c = 'I' then 'i'
  else if c = 'J' then 'j' else if c = 'K' then 'k' else if c = 'L' then 'l'
  else if c = 'M' then 'm' else if c = 'N' then 'n' else if c = 'O' then 'o'
  else if c = 'P' then 'p' else if c = 'Q' then 'q' else if c = 'R' then 'r'
  else if c = 'S' then 's' else if c = 'T' then 't' else if c = 'U' then 'u'
  else if c = 'V' then 'v' else if c = 'W' then 'w' else if c = 'X' then 'x'
  else if c = 'Y' then 'y' else if c = 'Z' then 'z' else c

/-- Python str.upper over a whole character list. -/
def pyUpperL (l : List Char) : List Char := l.map pyToUpperChar

/-- Python str.lower over a whole character list. -/
def pyLowerL (l : List Char) : List Char := l.map pyToLowerChar

/-- Python substring membership (`pat in s`). -/
def containsSubL (pat : List Char) : List Char → Bool
  | [] => pat.isEmpty
  | c :: cs => pat.isPrefixOf (c :: cs) || containsSubL pat cs

/-- Python str.split on a single separator character: every occurrence
splits, empty pieces are kept. -/
def splitOnCharL (sep : Char) : List Char → List (List Char)
  | [] => [[]]
  | c :: cs =>
    match splitOnCharL sep cs with
    | [] => [[]]
    | h :: t => if c = sep then [] :: h :: t else (c :: h) :: t

/-- Decimal value of a digit-character list (most significant first). -/
def digitsToNat (l : List Char) : Nat :=
  l.foldl (fun a c => 10 * a + (c.toNat - 48)) 0

/-- All characters are ASCII decimal digits. -/
def allDigits (l : List Char) : Bool := l.all (·.isDigit)

/-- Python int(str): strip whitespace, optional sign, then decimal digits;
anything else raises (none).  Digit-group underscores are not modelled. -/
def parseIntPy (l : List Char) : Option Int :=
  match pyStripL l with
  | [] => none
  | c :: ds =>
    if c = '+' then
      if ds ≠ [] ∧ allDigits ds then some ((digitsToNat ds : Nat) : Int) else none
    else if c = '-' then
      if ds ≠ [] ∧ allDigits ds then some (-((digitsToNat ds : Nat) : Int)) else none
    else if allDigits (c :: ds) then some ((digitsToNat (c :: ds) : Nat) : Int)
    else none

/-- Length of February depending on the Gregorian leap rule, as enforced by
Python datetime. -/
def daysInMonth (y m : Nat) : Nat :=
  if m = 2 then
    (if y % 4 = 0 ∧ (y % 100 ≠ 0 ∨ y % 400 = 0) then 29 else 28)
  else if m = 4 ∨ m = 6 ∨ m = 9 ∨ m = 11 then 30 else 31

/-- Python datetime.strptime(s, "%Y-%m-%d"): a four-digit year, one- or
two-digit month 1..12 and day 1..31, nothing else in the string, and the
day must exist in the given month and year (year at least 1). -/
def parseDatePy (s : String) : Option (Nat × Nat × Nat) :=
  match splitOnCharL '-' s.data with
  | [ys, ms, ds] =>
    if ys.length = 4 ∧ allDigits ys
        ∧ (ms.length = 1 ∨ ms.length = 2) ∧ allDigits ms
        ∧ (ds.length = 1 ∨ ds.length = 2) ∧ allDigits ds then
      let y := digitsToNat ys
      let m := digitsToNat ms
      let d := digitsToNat ds
      if 1 ≤ y ∧ 1 ≤ m ∧ m ≤ 12 ∧ 1 ≤ d ∧ d ≤ daysInMonth y m then
        some (y, m, d)
      else none
    else none
  | _ => none

/-- Python round(x, 2) on an exact rational: scale by 100 and round half to
even. -/
def pyRound2 (q : ℚ) : ℚ :=
  let scaled := q * 100
  let n : ℤ := ⌊scaled⌋
  let frac := scaled - (n : ℚ)
  let r : ℤ :=
    if frac < 1/2 then n
    else if 1/2 < frac then n + 1
    else if n % 2 = 0 then n else n + 1
  (r : ℚ) / 100

/-- Python min(a, b): the second argument when strictly smaller.  Agrees
with the lattice min on ℚ but reduces in the kernel. -/
def pyMin (a b : ℚ) : ℚ := if b < a then b else a

/-- Stable insertion step for descending sort by a rational key. -/
def insDescBy (k : α → ℚ) (x : α) : List α → List α
  | [] => [x]
  | y :: ys => if k y ≤ k x then x :: y :: ys else y :: insDescBy k x ys

/-- Stable sort by key, descending.  Python sorted(key=k, reverse=True) is a
stable descending sort, and any two stable sorts for the same total
preorder agree, so insertion sort models it exactly. -/
def isortDescBy (k : α → ℚ) : List α → List α
  | [] => []
  | x :: xs => insDescBy k x (isortDescBy k xs)

/-- List.mapM specialised to Option by structural recursion: the first
failing element aborts the whole computation, mirroring a Python loop in
which an iteration raises. -/
def mapOptionAll (f : α → Option β) : List α → Option (List β)
  | [] => some []
  | x :: xs =>
    match f x, mapOptionAll f xs with
    | some y, some ys => some (y :: ys)
    | _, _ => none

/-! ## Data model -/

/-- A retrieved medical record dictionary as built by the Retrieval Agent
and consumed downstream.  Option fields model dictionary keys that may be
absent (read with dict.get); present-but-empty strings are some "". -/
structure MedRecord where
  source_id : Option String := none
  patient_id : String := ""
  patient_name : String := ""
  date : String := ""
  record_type : String := ""
  text : String := ""
  diagnosis : Option String := none
  medication : Option String := none
  confidence : Option ℚ := none
  search_method : String := ""
deriving DecidableEq

/-- A citation dictionary as built by CitationAgent._build_citation. -/
structure Citation where
  source_id : String
  patient_id : String
  patient_name : String
  date : String
  record_type : String
  text : String
  confidence : ℚ
deriving DecidableEq

/-- The context dictionary built by ContextBuilderAgent.build_context.  In
the empty-input branch Python omits the patient_groups and category keys;
they are never read there, so the model keeps them with inert defaults. -/
structure Ctx where
  context_summary : String
  total_records : Nat
  records : List MedRecord
  key_findings : List String
  patient_groups : List (String × List MedRecord) := []
  category : String := ""
deriving DecidableEq

/-- The routing decision dictionary returned by RouterAgent.route. -/
structure RouteResult where
  category : String
  confidence : ℚ
  reasoning : String
deriving DecidableEq

/-- One hit of the vector-search backend: document text, metadata and the
reported distance (parallel arrays in the raw response, zipped here as the
backend interface contract guarantees equal lengths). -/
structure VHit where
  id : String
  doc : String := ""
  patient_id : Option String := none
  patient_name : Option String := none
  date : Option String := none
  record_type : Option String := none
  diagnosis : Option String := none
  medication : Option String := none
  distance : ℚ := 0
deriving DecidableEq

/-- One SQLite row returned by get_patient_records, by column position:
id, patient_id, patient_name, date, record_type, description, diagnosis,
medication, lab_results, doctor. -/
structure PatientRow where
  f0 : Nat := 0
  f1 : String := ""
  f2 : String := ""
  f3 : String := ""
  f4 : String := ""
  f5 : Option String := none
  f6 : Option String := none
  f7 : Option String := none
  f8 : Option String := none
  f9 : String := ""
deriving DecidableEq

/-! ## Retrieval Agent (app/agents/retriever.py) -/

/-- Python `value or 'N/A'` for a nullable column. -/
def orNA (o : Option String) : String :=
  match o with
  | some s => if s = "" then "N/A" else s
  | none => "N/A"

/-- RetrievalAgent._format_record: the triple-quoted f-string keeps the
8-space indentation of its continuation lines; the outer .strip() removes
only the leading and trailing newline plus indent. -/
def formatRecord (r : PatientRow) : String :=
  "Patient: " ++ r.f2 ++ " (ID: " ++ r.f1 ++ ")\n        Date: " ++ r.f3
  ++ "\n        Type: " ++ r.f4 ++ "\n        Description: " ++ orNA r.f5
  ++ "\n        Diagnosis: " ++ orNA r.f6 ++ "\n        Medication: " ++ orNA r.f7
  ++ "\n        Lab Results: " ++ orNA r.f8 ++ "\n        Doctor: " ++ r.f9

/-- The record dictionary appended for one vector-search hit. -/
def vecRecord (h : VHit) : MedRecord :=
  { source_id := some h.id, text := h.doc,
    patient_id := h.patient_id.getD "", patient_name := h.patient_name.getD "",
    date := h.date.getD "", record_type := h.record_type.getD "",
    diagnosis := some (h.diagnosis.getD ""), medication := some (h.medication.getD ""),
    confidence := some (max 0 (1 - h.distance)), search_method := "vector" }

/-- The record dictionary appended for one patient-history row.  The source
reads medication from column 5 (the description column) and diagnosis from
column 6; this index choice is preserved exactly. -/
def pfRecord (row : PatientRow) : MedRecord :=
  { source_id := some ("sqlite_" ++ toString row.f0), text := formatRecord row,
    patient_id := row.f1, patient_name := row.f2, date := row.f3,
    record_type := row.f4,
    diagnosis := some (row.f6.getD ""), medication := some (row.f5.getD ""),
    confidence := some (85/100), search_method := "patient_filter" }

/-- RetrievalAgent.retrieve.  The two backend responses are passed in as
data; a backend exception is modelled by the caller seeing [] (the except
branch), which the dedup and ordering claims cover trivially. -/
def retrieve (question : String) (patient_id : Option String) (top_k : Nat)
    (vhits : List VHit) (patientRows : List PatientRow) : List MedRecord :=
  let _ := question
  let vres := (vhits.filter (fun h =>
      match patient_id with
      | some p => h.patient_id == some p
      | none => true)).map vecRecord
  let results :=
    match patient_id with
    | some _ =>
      (patientRows.take 3).foldl (fun acc row =>
        if acc.any (fun r => r.patient_id == row.f1 && r.date == row.f3) then acc
        else acc ++ [pfRecord row]) vres
    | none => vres
  (isortDescBy (fun r => r.confidence.getD 0) results).take top_k

/-! ## Context Builder Agent (app/agents/context_builder.py) -/

/-- Sort key of one record: datetime(y, m, d) order-embedded into ℚ. -/
def dateKeyQ (r : MedRecord) : ℚ :=
  match parseDatePy r.date with
  | some (y, m, d) => ((y * 10000 + m * 100 + d : Nat) : ℚ)
  | none => 0

/-- ContextBuilderAgent._sort_by_date.  CPython sorted computes every key
before comparing, so one unparseable date aborts the whole sort inside the
try block and the except branch returns the input unchanged. -/
def sortByDate (records : List MedRecord) : List MedRecord :=
  if records.all (fun r => (parseDatePy r.date).isSome) then
    isortDescBy dateKeyQ records
  else records

/-- The cleaned distinct values of one optional field: non-empty after
strip and not none/n/a case-insensitively.  Python collects them in a set;
set iteration order is unspecified, modelled as first-occurrence order. -/
def cleanValues (get : MedRecord → Option String) (records : List MedRecord) :
    List String :=
  (records.filterMap (fun r =>
    let v : String := ⟨pyStripL ((get r).getD "").data⟩
    if v ≠ "" ∧ (⟨pyLowerL v.data⟩ : String) ∉ (["none", "n/a", ""] : List String)
    then some v else none)).dedup

/-- ContextBuilderAgent._extract_key_findings. -/
def extractKeyFindings (records : List MedRecord) (category : String) :
    List String :=
  let catFindings : List String :=
    if category = "MEDICATION" then
      let meds := cleanValues (·.medication) records
      if meds ≠ [] then ["Medications found: " ++ String.intercalate ", " meds] else []
    else if category = "DIAGNOSIS" then
      let diags := cleanValues (·.diagnosis) records
      if diags ≠ [] then ["Diagnoses found: " ++ String.intercalate ", " diags] else []
    else if category = "TIMELINE" then
      match records with
      | [] => []
      | r :: rs =>
        ["Records span from " ++ ((r :: rs).getLast (List.cons_ne_nil r rs)).date
           ++ " to " ++ r.date,
         "Total visits/records: " ++ toString (r :: rs).length]
    else if category = "LAB_RESULTS" then
      let labCount := (records.filter (fun r => r.record_type == "lab")).length
      if labCount > 0 then ["Found " ++ toString labCount ++ " lab result(s)"] else []
    else []
  let patients := (records.map (·.patient_name)).dedup
  catFindings ++
    [if patients.length = 1 then "All records for patient: " ++ patients.headD ""
     else "Records from " ++ toString patients.length ++ " patient(s)"]

/-- ContextBuilderAgent._create_summary (category parameter unused, as in
the source). -/
def createSummary (records : List MedRecord) (category : String) : String :=
  let _ := category
  let patients := (records.map (·.patient_name)).dedup
  let base :=
    if patients.length = 1 then
      "Found " ++ toString records.length ++ " record(s) for " ++ patients.headD "" ++ ". "
    else
      "Found " ++ toString records.length ++ " record(s) across "
        ++ toString patients.length ++ " patient(s). "
  match records with
  | [] => base
  | r :: rs =>
    base ++ "Date range: " ++ ((r :: rs).getLast (List.cons_ne_nil r rs)).date
      ++ " to " ++ r.date ++ "."

/-- ContextBuilderAgent._group_by_patient: a Python dict keyed by patient
id, insertion-ordered, each group accumulating records in list order. -/
def groupByPatient (records : List MedRecord) : List (String × List MedRecord) :=
  records.foldl (fun groups r =>
    if groups.any (fun g => g.1 == r.patient_id) then
      groups.map (fun g => if g.1 = r.patient_id then (g.1, g.2 ++ [r]) else g)
    else groups ++ [(r.patient_id, [r])]) []

/-- ContextBuilderAgent.build_context. -/
def buildContext (question : String) (retrievedRecords : List MedRecord)
    (category : String) : Ctx :=
  let _ := question
  match retrievedRecords with
  | [] =>
    { context_summary := "No relevant records found.", total_records := 0,
      records := [], key_findings := [] }
  | _ :: _ =>
    let sortedRecords := sortByDate retrievedRecords
    { context_summary := createSummary sortedRecords category,
      total_records := sortedRecords.length,
      records := sortedRecords,
      key_findings := extractKeyFindings sortedRecords category,
      patient_groups := groupByPatient sortedRecords,
      category := category }

/-! ## Citation Agent (app/agents/citation.py) -/

/-- The fixed keyword list of _extract_relevant_snippet. -/
def keyTerms : List String :=
  ["medication", "diagnosis", "lab", "result", "test",
   "prescribed", "treatment", "condition", "visit"]

/-- re.split applied with the sentence pattern: a terminal punctuation mark
followed by at least one whitespace character separates sentences, and the
separator (punctuation plus the maximal whitespace run) is consumed. -/
def splitSentencesPy : List Char → List (List Char)
  | [] => [[]]
  | c :: cs =>
    if (c == '.' || c == '!' || c == '?') &&
        (match cs.head? with | some d => pyIsWs d | none => false) then
      [] :: splitSentencesPy (cs.dropWhile pyIsWs)
    else
      match splitSentencesPy cs with
      | [] => [[]]
      | h :: t => (c :: h) :: t
termination_by l => l.length
decreasing_by
  · simp only [List.length_cons]
    exact Nat.lt_succ_of_le (cs.dropWhile_suffix pyIsWs).sublist.length_le
  · simp

/-- The captured group of the regex fragment applied after a Description
label: a greedy whitespace run that backtracks until a non-newline
character starts the capture.  The argument is the initial (maximal)
whitespace-run length. -/
def descGroupFrom (rest : List Char) : Nat → Option (List Char)
  | 0 =>
    match rest.head? with
    | some c => if c = '\n' then none else some (rest.takeWhile (fun d => d != '\n'))
    | none => none
  | w + 1 =>
    match (rest.drop (w + 1)).head? with
    | some c =>
      if c = '\n' then descGroupFrom rest w
      else some ((rest.drop (w + 1)).takeWhile (fun d => d != '\n'))
    | none => descGroupFrom rest w

/-- re.search for the Description pattern: first position whose label is
followed by a successful capture wins. -/
def searchDescPy : List Char → Option (List Char)
  | [] => none
  | c :: cs =>
    if ("Description:".data).isPrefixOf (c :: cs) then
      let rest := (c :: cs).drop 12
      match descGroupFrom rest (rest.takeWhile pyIsWs).length with
      | some g => some g
      | none => searchDescPy cs
    else searchDescPy cs

/-- CitationAgent._extract_relevant_snippet. -/
def extractRelevantSnippet (record : MedRecord) (question : String) : String :=
  let fullText := record.text
  let qLower := pyLowerL question.data
  let sentences := splitSentencesPy fullText.data
  let relevant := (sentences.filter (fun s =>
    keyTerms.any (fun t =>
      containsSubL t.data qLower && containsSubL t.data (pyLowerL s)))).map pyStripL
  if relevant ≠ [] then
    ⟨List.intercalate ". ".data (relevant.take 2)⟩
  else if containsSubL "Description:".data fullText.data then
    match searchDescPy fullText.data with
    | some g => ⟨pyStripL g⟩
    | none => ⟨fullText.data.take 200⟩
  else ⟨fullText.data.take 200⟩

/-- Python truthiness of an optional string value. -/
def optTruthy : Option String → Bool
  | none => false
  | some s => s != ""

/-- The base confidence read by _calculate_confidence: the retrieval
confidence of the record, 0.7 when absent. -/
def baseConfidence (record : MedRecord) : ℚ := record.confidence.getD (7/10)

/-- The keyword relevance boosts of _calculate_confidence. -/
def relevanceBoost (record : MedRecord) (question : String) : ℚ :=
  let qLower := pyLowerL question.data
  (if containsSubL "medication".data qLower && optTruthy record.medication
   then 1/10 else 0)
  + (if containsSubL "diagnosis".data qLower && optTruthy record.diagnosis
     then 1/10 else 0)
  + (if containsSubL "lab".data qLower && (record.record_type == "lab")
     then 15/100 else 0)

/-- CitationAgent._calculate_confidence.  The int conversion of the month
field can raise, hence the Option result: none is an escaped ValueError. -/
def calcConfidence (record : MedRecord) (question : String) : Option ℚ :=
  let base := baseConfidence record
  let boost := relevanceBoost record question
  let date := record.date.data
  let monthOpt : Option Int :=
    if date.any (· == '-') then
      match (splitOnCharL '-' date).get? 1 with
      | some part => parseIntPy part
      | none => none
    else some 1
  let recencyOpt : Option ℚ :=
    if containsSubL "2024".data date then
      monthOpt.map (fun m => ((m : ℚ) / 12) * (1/10))
    else some 0
  recencyOpt.map (fun rb => pyMin 1 (base + boost + rb))

/-- CitationAgent._build_citation. -/
def buildCitation (question : String) (record : MedRecord) : Option Citation :=
  (calcConfidence record question).map (fun conf =>
    { source_id := record.source_id.getD "unknown",
      patient_id := record.patient_id,
      patient_name := record.patient_name,
      date := record.date,
      record_type := record.record_type,
      text := extractRelevantSnippet record question,
      confidence := pyRound2 conf })

/-- CitationAgent.create_citations: build one citation per context record
(a built citation dictionary is always truthy, so every record contributes)
then sort by confidence descending; a raising iteration aborts the stage. -/
def createCitations (question : String) (context : Ctx) :
    Option (List Citation) :=
  (mapOptionAll (buildCitation question) context.records).map
    (isortDescBy (·.confidence))

/-! ## Answer Agent (app/agents/answer.py) -/

/-- The fixed refusal sentence returned when no citations exist. -/
def refusalText : String :=
  "I couldn\x27t find any relevant information in the medical records to answer this question."

/-- AnswerAgent._format_evidence. -/
def formatEvidence (citations : List Citation) : String :=
  String.intercalate "\n\n" ((citations.enumFrom 1).map (fun ic =>
    ⟨pyStripL ("\n[Source " ++ toString ic.1 ++ "]\nPatient: " ++ ic.2.patient_name
      ++ " (" ++ ic.2.patient_id ++ ")\nDate: " ++ ic.2.date ++ "\nType: "
      ++ ic.2.record_type ++ "\nContent: " ++ ic.2.text ++ "\n").data⟩))

/-- AnswerAgent._build_prompt (category parameter unused, as in the source). -/
def buildPrompt (question : String) (context : Ctx) (citations : List Citation)
    (category : String) : String :=
  let _ := category
  let evidence := formatEvidence citations
  "You are a medical records assistant. Answer the question based ONLY on the provided evidence.\n\nQuestion: "
  ++ question ++ "\n\nContext Summary: " ++ context.context_summary
  ++ "\n\nKey Findings:\n"
  ++ String.intercalate "\n" (context.key_findings.map (fun f => "- " ++ f))
  ++ "\n\nEvidence from Medical Records:\n" ++ evidence
  ++ "\n\nInstructions:\n1. Answer the question directly and concisely\n2. Use ONLY information from the evidence provided above\n3. Be specific - mention patient names, dates, medications, diagnoses, etc.\n4. If the evidence shows conflicting information, mention both\n5. If the evidence is insufficient, say so clearly\n6. Do NOT make up or infer information not in the evidence\n7. Keep your answer focused and under 150 words\n\nAnswer:"

/-- Python str.replace(pat, "") scanning left to right, deleting every
non-overlapping occurrence. -/
def pyReplaceDel (pat : List Char) : List Char → List Char
  | [] => []
  | c :: cs =>
    if pat ≠ [] ∧ pat.isPrefixOf (c :: cs) then
      pyReplaceDel pat ((c :: cs).drop pat.length)
    else c :: pyReplaceDel pat cs
termination_by l => l.length
decreasing_by
  · rename_i h
    simp only [List.length_drop, List.length_cons]
    have : 0 < pat.length := List.length_pos.mpr h.1
    omega
  · simp

/-- Highest index in the list whose character satisfies the test, as an
integer, or -1 when there is none (the Python rfind convention). -/
def rfindP (p : Char → Bool) (l : List Char) : Int :=
  match l.reverse.findIdx? p with
  | some j => (l.length : Int) - 1 - j
  | none => -1

/-- Python str.rfind: the highest index of the character, or -1. -/
def rfindPy (c : Char) (l : List Char) : Int := rfindP (· == c) l

/-- Terminal sentence punctuation. -/
def isTermPunct (c : Char) : Bool := c == '.' || c == '!' || c == '?'

/-- The sentence-truncation statement block of _clean_answer: when the text
is non-empty and does not end in terminal punctuation, compute
last_period as the maximum of the three rfinds and cut when it exceeds
half the length (the int-against-float comparison last_period > len*0.5 is
exact, written here as 2*lp > len). -/
def truncCode (l : List Char) : List Char :=
  match l.getLast? with
  | none => l
  | some last =>
    if isTermPunct last then l
    else
      let lp : Int := max (max (rfindPy '.' l) (rfindPy '!' l)) (rfindPy '?' l)
      if 2 * lp > (l.length : Int) then l.take (lp + 1).toNat else l

/-- AnswerAgent._clean_answer on a character list, statement by statement. -/
def cleanAnswerL (l : List Char) : List Char :=
  let a1 := pyStripL l
  let a2 := pyStripL (pyReplaceDel "Answer:".data a1)
  let a3 := pyStripL (pyReplaceDel "Based on the evidence:".data a2)
  let a4 := match a3 with
    | [] => []
    | c :: cs => if pyIsLower c then pyToUpperChar c :: cs else c :: cs
  truncCode a4

/-- AnswerAgent._clean_answer on strings. -/
def cleanAnswer (s : String) : String := ⟨cleanAnswerL s.data⟩

/-- AnswerAgent.generate_answer.  The generation backend is a function
argument; the result pairs the returned answer with the number of
generation calls made. -/
def generateAnswer (gen : String → Except String String) (question : String)
    (context : Ctx) (citations : List Citation) (category : String) :
    String × Nat :=
  match citations with
  | [] => (refusalText, 0)
  | _ :: _ =>
    match gen (buildPrompt question context citations category) with
    | Except.ok a => (cleanAnswer a, 1)
    | Except.error e => ("Error generating answer: " ++ e, 1)

/-! ## Router Agent (app/agents/router.py) -/

/-- The fixed category priority order scanned by RouterAgent.route. -/
def routerCategories : List String :=
  ["MEDICATION", "DIAGNOSIS", "LAB_RESULTS", "TIMELINE", "GENERAL"]

/-- RouterAgent.route, with the generation outcome as data: ok carries the
raw backend text, error a caught exception message. -/
def route (genResult : Except String String) : RouteResult :=
  match genResult with
  | Except.error e =>
    { category := "GENERAL", confidence := 3/10,
      reasoning := "Error during routing: " ++ e }
  | Except.ok raw =>
    let response := pyUpperL (pyStripL raw.data)
    match routerCategories.find? (fun cat => containsSubL cat.data response) with
    | some cat =>
      { category := cat, confidence := 9/10,
        reasoning := "Query classified as " ++ cat }
    | none =>
      { category := "GENERAL", confidence := 1/2,
        reasoning := "Could not clearly classify query" }

/-! ## Specification-side definitions

These follow the wording of the specification for the claims that compare
the code against an independently stated formula. -/

/-- A date string in the shape YYYY-MM-DD: ten characters, dashes at
positions 4 and 7, decimal digits elsewhere (the ISO-8601 string form the
data model prescribes for record dates). -/
def isoShapedB (s : String) : Bool :=
  match s.data with
  | [a, b, c, d, x, e, f, y, g, h] =>
    a.isDigit && b.isDigit && c.isDigit && d.isDigit && (x == '-')
      && e.isDigit && f.isDigit && (y == '-') && g.isDigit && h.isDigit
  | _ => false

/-- Calendar year of a YYYY-MM-DD shaped date string. -/
def yearOf (s : String) : Nat := digitsToNat (s.data.take 4)

/-- Calendar month of a YYYY-MM-DD shaped date string. -/
def monthOf (s : String) : Nat := digitsToNat ((s.data.drop 5).take 2)

/-- The Evidence Scorer confidence formula as the specification states it:
base retrieval confidence (0.7 if absent), the three keyword boosts, and a
recency term (month twelfth times 0.10) for dates whose calendar year is
2024; capped at 1 and rounded to two decimals. -/
def specCitationConfidence (record : MedRecord) (question : String) : ℚ :=
  let base := baseConfidence record
  let boosts := relevanceBoost record question
  let recency : ℚ :=
    if yearOf record.date = 2024 then ((monthOf record.date : ℚ) / 12) * (1/10)
    else 0
  pyRound2 (pyMin 1 (base + boosts + recency))

/-- The classifier outcome as the specification states it for a successful
generation call: the first category of the fixed priority order occurring
as a substring of the uppercased (unstripped) response. -/
def specRouteOk (raw : String) : RouteResult :=
  match routerCategories.find? (fun cat => containsSubL cat.data (pyUpperL raw.data)) with
  | some cat =>
    { category := cat, confidence := 9/10,
      reasoning := "Query classified as " ++ cat }
  | none =>
    { category := "GENERAL", confidence := 1/2,
      reasoning := "Could not clearly classify query" }

/-- Leftmost non-overlapping split on a multi-character pattern; joining
the pieces is the specification reading of deleting every occurrence. -/
def splitOnPatL (pat : List Char) : List Char → List (List Char)
  | [] => [[]]
  | c :: cs =>
    if pat ≠ [] ∧ pat.isPrefixOf (c :: cs) then
      [] :: splitOnPatL pat ((c :: cs).drop pat.length)
    else
      match splitOnPatL pat cs with
      | [] => [[c]]
      | h :: t => (c :: h) :: t
termination_by l => l.length
decreasing_by
  · rename_i h
    simp only [List.length_drop, List.length_cons]
    have : 0 < pat.length := List.length_pos.mpr h.1
    omega
  · simp

/-- Index of the last sentence-terminal punctuation character, if any. -/
def lastTermIdx (l : List Char) : Option Nat :=
  match l.reverse.findIdx? isTermPunct with
  | some j => some (l.length - 1 - j)
  | none => none

/-- Truncation step as the specification words it: when the text does not
end in terminal punctuation, cut back to the last terminal punctuation
mark provided its index exceeds half the length, else leave unchanged. -/
def truncSpec (l : List Char) : List Char :=
  match l.getLast? with
  | none => l
  | some last =>
    if isTermPunct last then l
    else
      match lastTermIdx l with
      | some i => if l.length < 2 * i then l.take (i + 1) else l
      | none => l

/-- Capitalization step: first letter upper-cased when lower-case. -/
def capSpec (l : List Char) : List Char :=
  match l with
  | [] => []
  | c :: cs => if pyIsLower c then pyToUpperChar c :: cs else c :: cs

/-- Answer post-processing as amended: trim, delete every occurrence of the
two artifact phrases (each pass followed by a trim), capitalize, truncate. -/
def cleanSpec (l : List Char) : List Char :=
  let a1 := pyStripL l
  let a2 := pyStripL (splitOnPatL "Answer:".data a1).flatten
  let a3 := pyStripL (splitOnPatL "Based on the evidence:".data a2).flatten
  truncSpec (capSpec a3)

/-! ## Lemmas about the stable descending sort -/

theorem insDescBy_perm (k : α → ℚ) (x : α) (l : List α) :
    (insDescBy k x l).Perm (x :: l) := by
  induction l with
  | nil => exact List.Perm.refl _
  | cons y ys ih =>
    rw [insDescBy]
    split
    · exact List.Perm.refl _
    · exact (ih.cons y).trans (List.Perm.swap x y ys)

theorem isortDescBy_perm (k : α → ℚ) (l : List α) :
    (isortDescBy k l).Perm l := by
  induction l with
  | nil => exact List.Perm.refl _
  | cons x xs ih => exact (insDescBy_perm k x (isortDescBy k xs)).trans (ih.cons x)

theorem mem_isortDescBy (k : α → ℚ) {l : List α} {a : α}
    (h : a ∈ isortDescBy k l) : a ∈ l :=
  (isortDescBy_perm k l).mem_iff.mp h

theorem insDescBy_pairwise (k : α → ℚ) (x : α) {l : List α}
    (h : l.Pairwise (fun a b => k b ≤ k a)) :
    (insDescBy k x l).Pairwise (fun a b => k b ≤ k a) := by
  induction l with
  | nil => simp [insDescBy]
  | cons y ys ih =>
    rw [List.pairwise_cons] at h
    rw [insDescBy]
    split
    · rename_i hyx
      refine List.pairwise_cons.mpr ⟨?_, List.pairwise_cons.mpr h⟩
      intro b hb
      rcases List.mem_cons.mp hb with rfl | hb
      · exact hyx
      · exact le_trans (h.1 b hb) hyx
    · rename_i hyx
      refine List.pairwise_cons.mpr ⟨?_, ih h.2⟩
      intro b hb
      rcases List.mem_cons.mp ((insDescBy_perm k x ys).mem_iff.mp hb) with rfl | hb
      · exact le_of_lt (lt_of_not_le hyx)
      · exact h.1 b hb

theorem isortDescBy_pairwise (k : α → ℚ) (l : List α) :
    (isortDescBy k l).Pairwise (fun a b => k b ≤ k a) := by
  induction l with
  | nil => simp [isortDescBy]
  | cons x xs ih => exact insDescBy_pairwise k x ih

theorem insDescBy_filter (k : α → ℚ) (p : α → Bool)
    (hp : ∀ a b, p a = true → p b = true → k a = k b) (x : α) (l : List α) :
    (insDescBy k x l).filter p = (x :: l).filter p := by
  induction l with
  | nil => rfl
  | cons y ys ih =>
    rw [insDescBy]
    split
    · rfl
    · rename_i hyx
      simp only [List.filter_cons]
      cases hpy : p y with
      | false =>
        cases hpx : p x with
        | false => simpa [hpx, hpy] using ih
        | true => simpa [hpx, hpy] using ih
      | true =>
        cases hpx : p x with
        | false => simpa [hpx, hpy] using ih
        | true => exact absurd (le_of_eq (hp x y hpx hpy).symm) hyx

theorem isortDescBy_filter (k : α → ℚ) (p : α → Bool)
    (hp : ∀ a b, p a = true → p b = true → k a = k b) (l : List α) :
    (isortDescBy k l).filter p = l.filter p := by
  induction l with
  | nil => rfl
  | cons x xs ih =>
    rw [isortDescBy, insDescBy_filter k p hp]
    simp only [List.filter_cons]
    cases hpx : p x
    · exact ih
    · rw [ih]

/-! ## Lemmas about substring membership, strip and upper-casing -/

theorem containsSubL_iff_isInfixOf {pat l : List Char} :
    containsSubL pat l = true ↔ pat <:+: l := by
  induction l with
  | nil => simp [containsSubL, List.isEmpty_iff, List.infix_nil]
  | cons c cs ih =>
    rw [containsSubL]
    simp [Bool.or_eq_true, List.isPrefixOf_iff_prefix, ih, List.infix_cons_iff]

theorem infix_of_append_ws_left {pat : List Char} (hpat : pat ≠ [])
    (hnws : ∀ c ∈ pat, pyIsWs c = false) :
    ∀ {a b : List Char}, (∀ c ∈ a, pyIsWs c = true) → pat <:+: a ++ b → pat <:+: b := by
  intro a
  induction a with
  | nil => intro b _ h; simpa using h
  | cons x xs ih =>
    intro b hws h
    rw [List.cons_append, List.infix_cons_iff] at h
    rcases h with h | h
    · rcases pat with _ | ⟨p, ps⟩
      · exact absurd rfl hpat
      · have hpx : p = x := (List.cons_prefix_cons.mp h).1
        have h1 : pyIsWs p = false := hnws p (List.mem_cons_self p ps)
        have h2 : pyIsWs x = true := hws x (List.mem_cons_self x xs)
        rw [hpx, h2] at h1
        exact absurd h1 (by simp)
    · exact ih (fun c hc => hws c (List.mem_cons_of_mem x hc)) h

theorem infix_of_append_ws_right {pat : List Char} (hpat : pat ≠ [])
    (hnws : ∀ c ∈ pat, pyIsWs c = false)
    {b a : List Char} (hws : ∀ c ∈ a, pyIsWs c = true) (h : pat <:+: b ++ a) :
    pat <:+: b := by
  have h1 : pat.reverse <:+: a.reverse ++ b.reverse := by
    rw [← List.reverse_append]
    exact List.reverse_infix.mpr h
  have h2 : pat.reverse <:+: b.reverse :=
    infix_of_append_ws_left (by simpa using hpat)
      (fun c hc => hnws c (List.mem_reverse.mp hc))
      (fun c hc => hws c (List.mem_reverse.mp hc)) h1
  exact List.reverse_infix.mp h2

theorem pyStripL_isInfixOf (l : List Char) : pyStripL l <:+: l := by
  unfold pyStripL
  have h1 : ((l.dropWhile pyIsWs).reverse.dropWhile pyIsWs).reverse
      <+: (l.dropWhile pyIsWs).reverse.reverse := by
    rw [List.reverse_prefix]
    exact List.dropWhile_suffix pyIsWs
  rw [List.reverse_reverse] at h1
  exact h1.isInfix.trans (List.dropWhile_suffix pyIsWs).isInfix

theorem containsSubL_pyStripL {pat : List Char} (hpat : pat ≠ [])
    (hnws : ∀ c ∈ pat, pyIsWs c = false) (l : List Char) :
    containsSubL pat (pyStripL l) = containsSubL pat l := by
  rw [Bool.eq_iff_iff, containsSubL_iff_isInfixOf, containsSubL_iff_isInfixOf]
  constructor
  · intro h
    exact h.trans (pyStripL_isInfixOf l)
  · intro h
    have hmid : pat <:+: l.dropWhile pyIsWs := by
      refine infix_of_append_ws_left hpat hnws
        (a := l.takeWhile pyIsWs) (fun c hc => List.mem_takeWhile_imp hc) ?_
      rw [List.takeWhile_append_dropWhile]
      exact h
    set m := l.dropWhile pyIsWs with hm
    have hdec : m = pyStripL l ++ (m.reverse.takeWhile pyIsWs).reverse := by
      unfold pyStripL
      rw [← hm, ← List.reverse_append, List.takeWhile_append_dropWhile,
        List.reverse_reverse]
    refine infix_of_append_ws_right hpat hnws
      (a := (m.reverse.takeWhile pyIsWs).reverse)
      (fun c hc => List.mem_takeWhile_imp (List.mem_reverse.mp hc)) ?_
    rw [← hdec]
    exact hmid

theorem pyToUpperChar_of_ws {c : Char} (h : pyIsWs c = true) :
    pyToUpperChar c = c := by
  simp only [pyIsWs, Bool.or_eq_true, beq_iff_eq] at h
  rcases h with (((((rfl | rfl) | rfl) | rfl) | rfl) | rfl) <;> rfl

theorem pyStripL_decomp (l : List Char) :
    l = l.takeWhile pyIsWs
      ++ (pyStripL l ++ ((l.dropWhile pyIsWs).reverse.takeWhile pyIsWs).reverse) := by
  have hdec : l.dropWhile pyIsWs
      = pyStripL l ++ ((l.dropWhile pyIsWs).reverse.takeWhile pyIsWs).reverse := by
    unfold pyStripL
    rw [← List.reverse_append, List.takeWhile_append_dropWhile, List.reverse_reverse]
  conv_lhs => rw [← List.takeWhile_append_dropWhile (p := pyIsWs) (l := l), hdec]

theorem containsSubL_pyUpperL_pyStripL {pat : List Char} (hpat : pat ≠ [])
    (hnws : ∀ c ∈ pat, pyIsWs c = false) (raw : List Char) :
    containsSubL pat (pyUpperL (pyStripL raw)) = containsSubL pat (pyUpperL raw) := by
  rw [Bool.eq_iff_iff, containsSubL_iff_isInfixOf, containsSubL_iff_isInfixOf]
  have hwsmap : ∀ (w : List Char), (∀ c ∈ w, pyIsWs c = true) →
      ∀ c ∈ pyUpperL w, pyIsWs c = true := by
    intro w hw c hc
    obtain ⟨d, hd, rfl⟩ := List.mem_map.mp hc
    rw [pyToUpperChar_of_ws (hw d hd)]
    exact hw d hd
  constructor
  · intro h
    exact h.trans (List.IsInfix.map pyToUpperChar (pyStripL_isInfixOf raw))
  · intro h
    conv at h => rw [pyStripL_decomp raw]
    unfold pyUpperL at h ⊢
    rw [List.map_append, List.map_append] at h
    have h1 := infix_of_append_ws_left hpat hnws
      (hwsmap _ (fun c hc => List.mem_takeWhile_imp hc)) h
    exact infix_of_append_ws_right hpat hnws
      (hwsmap _ (fun c hc => List.mem_takeWhile_imp (List.mem_reverse.mp hc))) h1

theorem find?_congr_on {p q : α → Bool} :
    ∀ {l : List α}, (∀ a ∈ l, p a = q a) → l.find? p = l.find? q := by
  intro l
  induction l with
  | nil => intro _; rfl
  | cons x xs ih =>
    intro h
    rw [List.find?_cons, List.find?_cons, h x (List.mem_cons_self x xs)]
    cases q x
    · exact ih (fun a ha => h a (List.mem_cons_of_mem x ha))
    · rfl

/-! ## Claim C8: classifier parsing and degradation -/

/-- C8: for every generation-backend response the Router returns the first
category name, in the fixed order MEDICATION, DIAGNOSIS, LAB_RESULTS,
TIMELINE, GENERAL, occurring as a substring of the uppercased response,
with confidence 0.9; no match gives GENERAL with 0.5; every generation
exception is caught and returned as GENERAL with confidence 0.3. -/
theorem router_first_match_and_degradation :
    (∀ raw : String, route (Except.ok raw) = specRouteOk raw) ∧
    (∀ e : String, route (Except.error e) =
      { category := "GENERAL", confidence := 3/10,
        reasoning := "Error during routing: " ++ e }) := by
  constructor
  · intro raw
    simp only [route, specRouteOk]
    have hfind :
        routerCategories.find?
            (fun cat => containsSubL cat.data (pyUpperL (pyStripL raw.data)))
          = routerCategories.find?
            (fun cat => containsSubL cat.data (pyUpperL raw.data)) := by
      apply find?_congr_on
      intro cat hcat
      have h1 : cat.data ≠ [] ∧ ∀ c ∈ cat.data, pyIsWs c = false := by
        fin_cases hcat <;> exact ⟨by decide, by decide⟩
      exact containsSubL_pyUpperL_pyStripL h1.1 h1.2 raw.data
    rw [hfind]
  · intro e
    rfl

/-! ## Claim C9: empty citations give the fixed refusal with no generation -/

/-- C9: for every question, context and category, an empty citation list
makes the Answer Synthesizer return the fixed refusal sentence verbatim,
and the generation-call count of the run is zero. -/
theorem empty_citations_refusal :
    ∀ (gen : String → Except String String) (question : String)
      (context : Ctx) (category : String),
      generateAnswer gen question context [] category
        = ("I couldn\x27t find any relevant information in the medical records to answer this question.", 0) := by
  intro gen question context category
  rfl

/-! ## Claim C5: unparseable dates leave the order untouched -/

/-- C5: whenever some record date fails to parse as a YYYY-MM-DD calendar
date, the Context Organizer date sort returns the input list unchanged
(and, being a total function, does not raise). -/
theorem sortByDate_unparseable_id :
    ∀ (records : List MedRecord),
      (∃ r ∈ records, parseDatePy r.date = none) →
      sortByDate records = records := by
  intro records h
  obtain ⟨r, hr, hnone⟩ := h
  unfold sortByDate
  rw [if_neg]
  intro hall
  rw [List.all_eq_true] at hall
  have hsome := hall r hr
  rw [hnone] at hsome
  simp at hsome

/-- Record with a well-formed date, for the C5 witness. -/
def c5RecGood : MedRecord := { patient_id := "P001", date := "2024-07-18" }

/-- Record with a malformed date, for the C5 witness. -/
def c5RecBad : MedRecord := { patient_id := "P002", date := "July 2024" }

/-- C5 witness: a concrete list with one malformed date is returned in its
original order. -/
theorem sortByDate_unparseable_id_witness :
    sortByDate [c5RecGood, c5RecBad] = [c5RecGood, c5RecBad] :=
  sortByDate_unparseable_id [c5RecGood, c5RecBad]
    ⟨c5RecBad, List.mem_cons_of_mem _ (List.mem_cons_self _ _), by decide⟩

/-! ## Claim C2: the citation stage can raise past the pipeline boundary -/

/-- C2 failing input: a record whose date contains "2024" and a dash but a
non-numeric month field makes _calculate_confidence evaluate
int(date.split('-')[1]) on a non-numeric string; the ValueError escapes
create_citations (modelled as none) and _run_citation has no handler, so
the exception crosses the pipeline boundary, contradicting the stated
error-handling design. -/
theorem createCitations_raises_on_malformed_date :
    createCitations "What medications is the patient taking?"
      { context_summary := "", total_records := 1,
        records := [{ patient_id := "P001", date := "2024-ab-01" }],
        key_findings := [] } = none := by
  decide

/-! ## Claim C10: the recency test is a substring test -/

/-- C10 counterexample: the claim says every record whose date contains
"2024" receives a recency term; for date "2024-xy" the substring test
fires, yet no confidence value is produced at all: the month conversion
raises and the computation aborts. -/
theorem recency_raises_on_unparsable_month :
    containsSubL "2024".data "2024-xy".data = true ∧
    calcConfidence { date := "2024-xy" } "q" = none :=
  ⟨by decide, by decide⟩

/-- C10 amended: the year-2024 test is a substring test on the date
string, never a parse of the calendar year.  A date containing "2024" but
no dash gets the January term (1/12)·0.10; a date without the substring
"2024" gets no recency term; a date containing "2024" and a dash gets the
term (month_field/12)·0.10 whenever the field between the first and the
second dash parses as an integer, and when that field fails to parse the
confidence computation raises (produces no value). -/
theorem recency_substring_amended :
    ((∀ (r : MedRecord) (q : String),
        containsSubL "2024".data r.date.data = true →
        r.date.data.any (· == '-') = false →
        calcConfidence r q
          = some (pyMin 1 (baseConfidence r + relevanceBoost r q
              + (1/12) * (1/10)))) ∧
    (∀ (r : MedRecord) (q : String),
        containsSubL "2024".data r.date.data = false →
        calcConfidence r q
          = some (pyMin 1 (baseConfidence r + relevanceBoost r q)))) ∧
    (∀ (r : MedRecord) (q : String) (part : List Char) (m : ℤ),
        containsSubL "2024".data r.date.data = true →
        r.date.data.any (· == '-') = true →
        (splitOnCharL '-' r.date.data).get? 1 = some part →
        parseIntPy part = some m →
        calcConfidence r q
          = some (pyMin 1 (baseConfidence r + relevanceBoost r q
              + ((m : ℚ) / 12) * (1/10)))) ∧
    (∀ (r : MedRecord) (q : String) (part : List Char),
        containsSubL "2024".data r.date.data = true →
        r.date.data.any (· == '-') = true →
        (splitOnCharL '-' r.date.data).get? 1 = some part →
        parseIntPy part = none →
        calcConfidence r q = none) := by
  refine ⟨⟨?_, ?_⟩, ?_, ?_⟩
  · intro r q h2024 hdash
    simp only [calcConfidence, h2024, hdash, if_true, if_false, Bool.false_eq_true,
      Option.map_some]
    norm_num
  · intro r q h2024
    simp only [calcConfidence, h2024, Bool.false_eq_true, if_false, Option.map_some]
    norm_num
  · intro r q part m h2024 hdash hget hm
    simp only [calcConfidence, h2024, hdash, if_true]
    rw [hget]
    dsimp only
    rw [hm]
    simp
  · intro r q part h2024 hdash hget hm
    simp only [calcConfidence, h2024, hdash, if_true]
    rw [hget]
    dsimp only
    rw [hm]
    rfl

/-- C10 witness: a dash-free date containing "2024" receives exactly the
January recency term, and the dashed date "x2024-7" (whose calendar year
is not even well defined) receives the month-7 term from its parsed
field. -/
theorem recency_substring_amended_witness :
    (calcConfidence { date := "2024" } "q"
      = some (pyMin 1 (baseConfidence { date := "2024" }
          + relevanceBoost { date := "2024" } "q" + (1/12) * (1/10)))) ∧
    (calcConfidence { date := "x2024-7" } "q"
      = some (pyMin 1 (baseConfidence { date := "x2024-7" }
          + relevanceBoost { date := "x2024-7" } "q"
          + (((7 : ℤ) : ℚ) / 12) * (1/10)))) :=
  ⟨recency_substring_amended.1.1 { date := "2024" } "q" (by decide) (by decide),
   recency_substring_amended.2.1 { date := "x2024-7" } "q" "7".data 7
     (by decide) (by decide) (by decide) (by decide)⟩

/-! ## Claim C3: the Evidence Scorer confidence formula -/

theorem isoShapedB_elim {s : String} (h : isoShapedB s = true) :
    ∃ a b c d e f g hh, s.data = [a, b, c, d, '-', e, f, '-', g, hh]
      ∧ a.isDigit = true ∧ b.isDigit = true ∧ c.isDigit = true ∧ d.isDigit = true
      ∧ e.isDigit = true ∧ f.isDigit = true ∧ g.isDigit = true ∧ hh.isDigit = true := by
  unfold isoShapedB at h
  split at h
  · rename_i a b c d x e f y g hh heq
    simp only [Bool.and_eq_true, beq_iff_eq] at h
    obtain ⟨⟨⟨⟨⟨⟨⟨⟨⟨ha, hb⟩, hc⟩, hd⟩, hx⟩, he⟩, hf⟩, hy⟩, hg⟩, hh2⟩ := h
    exact ⟨a, b, c, d, e, f, g, hh, by rw [heq, hx, hy], ha, hb, hc, hd, he, hf, hg, hh2⟩
  · exact absurd h (by simp)

theorem containsSubL_2024_shape {a b c d e f g h : Char} :
    containsSubL "2024".data [a, b, c, d, '-', e, f, '-', g, h] = true
      ↔ a = '2' ∧ b = '0' ∧ c = '2' ∧ d = '4' := by
  simp only [containsSubL, List.isPrefixOf, Bool.or_eq_true, Bool.and_eq_true, beq_iff_eq]
  simp
  constructor
  · rintro ⟨h1, h2, h3, h4⟩
    exact ⟨h1.symm, h2.symm, h3.symm, h4.symm⟩
  · rintro ⟨h1, h2, h3, h4⟩
    exact ⟨h1.symm, h2.symm, h3.symm, h4.symm⟩

theorem digit_toNat_bounds {c : Char} (h : c.isDigit = true) :
    48 ≤ c.toNat ∧ c.toNat ≤ 57 := by
  simp only [Char.isDigit, Bool.and_eq_true, decide_eq_true_eq] at h
  obtain ⟨h1, h2⟩ := h
  exact ⟨h1, h2⟩

theorem ne_dash_of_digit {c : Char} (h : c.isDigit = true) : ¬ c = '-' := by
  intro hc
  subst hc
  exact absurd h (by decide)

theorem ne_plus_of_digit {c : Char} (h : c.isDigit = true) : ¬ c = '+' := by
  intro hc
  subst hc
  exact absurd h (by decide)

theorem pyIsWs_false_of_digit {c : Char} (h : c.isDigit = true) :
    pyIsWs c = false := by
  have h1 : ¬ c = ' ' := fun hc => by subst hc; exact absurd h (by decide)
  have h2 : ¬ c = '\t' := fun hc => by subst hc; exact absurd h (by decide)
  have h3 : ¬ c = '\n' := fun hc => by subst hc; exact absurd h (by decide)
  have h4 : ¬ c = '\x0d' := fun hc => by subst hc; exact absurd h (by decide)
  have h5 : ¬ c = '\x0b' := fun hc => by subst hc; exact absurd h (by decide)
  have h6 : ¬ c = '\x0c' := fun hc => by subst hc; exact absurd h (by decide)
  simp [pyIsWs, h1, h2, h3, h4, h5, h6]

theorem splitOnCharL_shape {a b c d e f g h : Char}
    (ha : ¬ a = '-') (hb : ¬ b = '-') (hc : ¬ c = '-') (hd : ¬ d = '-')
    (he : ¬ e = '-') (hf : ¬ f = '-') (hg : ¬ g = '-') (hh : ¬ h = '-') :
    splitOnCharL '-' [a, b, c, d, '-', e, f, '-', g, h]
      = [[a, b, c, d], [e, f], [g, h]] := by
  simp [splitOnCharL, ha, hb, hc, hd, he, hf, hg, hh]

theorem parseIntPy_two_digits {e f : Char} (he : e.isDigit = true)
    (hf : f.isDigit = true) :
    parseIntPy [e, f] = some ((digitsToNat [e, f] : Nat) : Int) := by
  have hwse := pyIsWs_false_of_digit he
  have hwsf := pyIsWs_false_of_digit hf
  have hep := ne_plus_of_digit he
  have hem := ne_dash_of_digit he
  unfold parseIntPy pyStripL
  simp [List.dropWhile_cons, hwse, hwsf, hep, hem, allDigits, he, hf]

theorem char_eq_of_toNat {c : Char} {n : Nat} (h : c.toNat = n) :
    c = Char.ofNat n := by
  rw [← h, Char.ofNat_toNat]

theorem digitsToNat4_eq_2024 {a b c d : Char} (ha : a.isDigit = true)
    (hb : b.isDigit = true) (hc : c.isDigit = true) (hd : d.isDigit = true) :
    digitsToNat [a, b, c, d] = 2024 ↔ a = '2' ∧ b = '0' ∧ c = '2' ∧ d = '4' := by
  constructor
  · intro h
    obtain ⟨ha1, ha2⟩ := digit_toNat_bounds ha
    obtain ⟨hb1, hb2⟩ := digit_toNat_bounds hb
    obtain ⟨hc1, hc2⟩ := digit_toNat_bounds hc
    obtain ⟨hd1, hd2⟩ := digit_toNat_bounds hd
    simp only [digitsToNat, List.foldl] at h
    refine ⟨?_, ?_, ?_, ?_⟩
    · rw [char_eq_of_toNat (show a.toNat = 50 by omega)]
    · rw [char_eq_of_toNat (show b.toNat = 48 by omega)]
    · rw [char_eq_of_toNat (show c.toNat = 50 by omega)]
    · rw [char_eq_of_toNat (show d.toNat = 52 by omega)]
  · rintro ⟨rfl, rfl, rfl, rfl⟩
    decide

/-- The scenario record of the specification: medication Lisinopril 10mg
daily, retrieval confidence 0.95, date 2024-07-18. -/
def lisRec : MedRecord :=
  { medication := some "Lisinopril 10mg daily", confidence := some (95/100),
    date := "2024-07-18" }

/-- C3: for every record with a YYYY-MM-DD shaped date (the ISO-8601 form
the data model prescribes) the citation confidence equals
round(min(1, base + boosts + recency), 2) exactly as the specification
words it, and in the concrete medication scenario the confidence is 1.0. -/
theorem citation_confidence_formula :
    (∀ (r : MedRecord) (q : String), isoShapedB r.date = true →
        (buildCitation q r).map (·.confidence)
          = some (specCitationConfidence r q)) ∧
    (buildCitation "What medications is X taking?" lisRec).map (·.confidence)
      = some 1 := by
  constructor
  · intro r q hshape
    obtain ⟨a, b, c, d, e, f, g, hh, hdata, ha, hb, hc, hd, he, hf, hg, hh2⟩ :=
      isoShapedB_elim hshape
    have hdash : ([a, b, c, d, '-', e, f, '-', g, hh].any fun x => x == '-') = true := by
      simp
    have hsplit := splitOnCharL_shape (ne_dash_of_digit ha) (ne_dash_of_digit hb)
      (ne_dash_of_digit hc) (ne_dash_of_digit hd) (ne_dash_of_digit he)
      (ne_dash_of_digit hf) (ne_dash_of_digit hg) (ne_dash_of_digit hh2)
    have hmonth := parseIntPy_two_digits he hf
    by_cases hyear : digitsToNat [a, b, c, d] = 2024
    · have hcontains :
          containsSubL "2024".data [a, b, c, d, '-', e, f, '-', g, hh] = true :=
        containsSubL_2024_shape.mpr ((digitsToNat4_eq_2024 ha hb hc hd).mp hyear)
      simp only [buildCitation, calcConfidence, specCitationConfidence, yearOf, monthOf,
        hdata, hdash, hsplit, hmonth, hcontains, if_true, Option.map_map, Option.map_some]
      simp only [List.take, List.drop, hyear]
      simp [hmonth, Function.comp]
    · have hncontains :
          containsSubL "2024".data [a, b, c, d, '-', e, f, '-', g, hh] = false := by
        rw [← Bool.not_eq_true]
        intro hcon
        exact hyear
          ((digitsToNat4_eq_2024 ha hb hc hd).mpr (containsSubL_2024_shape.mp hcon))
      simp only [buildCitation, calcConfidence, specCitationConfidence, yearOf, monthOf,
        hdata, hncontains, Option.map_map, Option.map_some, Bool.false_eq_true, if_false]
      simp only [List.take, List.drop]
      simp [hyear, Function.comp]
  · simp +decide [buildCitation, calcConfidence, lisRec, optTruthy, parseIntPy, pyStripL,
      allDigits, digitsToNat, splitOnCharL, pyIsWs, baseConfidence, relevanceBoost]
    norm_num [pyMin, pyRound2]

/-- C3 witness: the scenario record satisfies the shape hypothesis and the
formula instance holds for it. -/
theorem citation_confidence_formula_witness :
    isoShapedB lisRec.date = true ∧
    (buildCitation "What medications is X taking?" lisRec).map (·.confidence)
      = some (specCitationConfidence lisRec "What medications is X taking?") :=
  ⟨by decide, citation_confidence_formula.1 lisRec "What medications is X taking?" (by decide)⟩

/-! ## Claim C4: citation bounds, ordering and stability -/

theorem mapOptionAll_mem {f : α → Option β} :
    ∀ {l : List α} {r : List β}, mapOptionAll f l = some r →
      ∀ b ∈ r, ∃ a ∈ l, f a = some b := by
  intro l
  induction l with
  | nil =>
    intro r h b hb
    simp [mapOptionAll] at h
    subst h
    simp at hb
  | cons x xs ih =>
    intro r h b hb
    rw [mapOptionAll] at h
    cases hfx : f x with
    | none => rw [hfx] at h; simp at h
    | some y =>
      cases hrest : mapOptionAll f xs with
      | none => rw [hfx, hrest] at h; simp at h
      | some ys =>
        rw [hfx, hrest] at h
        simp at h
        subst h
        rcases List.mem_cons.mp hb with rfl | hb
        · exact ⟨x, List.mem_cons_self x xs, hfx⟩
        · obtain ⟨a, hal, hfa⟩ := ih hrest b hb
          exact ⟨a, List.mem_cons_of_mem x hal, hfa⟩

theorem splitOnCharL_not_mem (sep : Char) :
    ∀ (l : List Char), ∀ part ∈ splitOnCharL sep l, sep ∉ part := by
  intro l
  induction l with
  | nil =>
    intro part hp
    simp [splitOnCharL] at hp
    subst hp
    simp
  | cons c cs ih =>
    intro part hp
    rw [splitOnCharL] at hp
    cases hrec : splitOnCharL sep cs with
    | nil => rw [hrec] at hp; simp at hp; subst hp; simp
    | cons hd tl =>
      rw [hrec] at hp
      by_cases hcs : c = sep
      · simp [hcs] at hp
        rcases hp with rfl | hp
        · simp
        · exact ih part (by rw [hrec]; exact List.mem_cons.mpr hp)
      · simp [hcs] at hp
        rcases hp with rfl | hp
        · intro hmem
          rcases List.mem_cons.mp hmem with rfl | hmem
          · exact hcs rfl
          · exact ih hd (by rw [hrec]; exact List.mem_cons_self hd tl) hmem
        · exact ih part (by rw [hrec]; exact List.mem_cons_of_mem hd hp)

theorem parseIntPy_nonneg {l : List Char} (hnd : '-' ∉ l) {v : Int}
    (h : parseIntPy l = some v) : 0 ≤ v := by
  unfold parseIntPy at h
  cases hstrip : pyStripL l with
  | nil => rw [hstrip] at h; exact absurd h (by simp)
  | cons c ds =>
    rw [hstrip] at h
    have hcl : c ∈ l := (pyStripL_isInfixOf l).subset (hstrip ▸ List.mem_cons_self c ds)
    by_cases hplus : c = '+'
    · simp only [hplus, if_true] at h
      split at h
      · obtain rfl := Option.some.inj h
        exact Int.natCast_nonneg _
      · exact absurd h (by simp)
    · have hminus : ¬ c = '-' := fun hm => hnd (hm ▸ hcl)
      simp only [hplus, hminus, if_false] at h
      split at h
      · obtain rfl := Option.some.inj h
        exact Int.natCast_nonneg _
      · exact absurd h (by simp)

theorem pyMin_one_bounds {x : ℚ} (hx : 0 ≤ x) :
    0 ≤ pyMin 1 x ∧ pyMin 1 x ≤ 1 := by
  unfold pyMin
  split_ifs with h <;> constructor <;> linarith

theorem pyRound2_bounds {q : ℚ} (h0 : 0 ≤ q) (h1 : q ≤ 1) :
    0 ≤ pyRound2 q ∧ pyRound2 q ≤ 1 := by
  simp only [pyRound2]
  have hs0 : (0:ℚ) ≤ q * 100 := by linarith
  have hs1 : q * 100 ≤ 100 := by linarith
  have hn0 : 0 ≤ ⌊q * 100⌋ := Int.floor_nonneg.mpr hs0
  have hnle : (⌊q * 100⌋ : ℚ) ≤ q * 100 := Int.floor_le _
  have hr : ∀ r : ℤ, 0 ≤ r → r ≤ 100 → 0 ≤ (r:ℚ)/100 ∧ (r:ℚ)/100 ≤ 1 := by
    intro r hr0 hr1
    constructor
    · positivity
    · rw [div_le_one (by norm_num)]
      exact_mod_cast hr1
  have hn100 : ⌊q * 100⌋ ≤ 100 := by
    have := Int.floor_le_floor (α := ℚ) hs1
    simpa using this
  split_ifs with hf1 hf2 hf3
  · exact hr _ hn0 hn100
  · have h99 : ⌊q * 100⌋ ≤ 99 := by
      by_contra hcon
      push_neg at hcon
      have : (100:ℚ) ≤ (⌊q * 100⌋ : ℚ) := by exact_mod_cast hcon
      linarith
    exact hr _ (by omega) (by omega)
  · exact hr _ hn0 hn100
  · have h99 : ⌊q * 100⌋ ≤ 99 := by
      by_contra hcon
      push_neg at hcon
      have hc : (100:ℚ) ≤ (⌊q * 100⌋ : ℚ) := by exact_mod_cast hcon
      have hfr : q * 100 - (⌊q * 100⌋ : ℚ) = 1/2 := by linarith
      linarith
    exact hr _ (by omega) (by omega)

theorem relevanceBoost_nonneg (r : MedRecord) (q : String) :
    0 ≤ relevanceBoost r q := by
  simp only [relevanceBoost]
  split_ifs <;> norm_num

theorem calcConfidence_bounds {r : MedRecord} {q : String} {v : ℚ}
    (hb0 : 0 ≤ baseConfidence r)
    (h : calcConfidence r q = some v) : 0 ≤ v ∧ v ≤ 1 := by
  have hboost := relevanceBoost_nonneg r q
  simp only [calcConfidence] at h
  by_cases h2024 : containsSubL "2024".data r.date.data = true
  · rw [if_pos h2024] at h
    by_cases hdash : (r.date.data.any fun x => x == '-') = true
    · rw [if_pos hdash] at h
      cases hget : (splitOnCharL '-' r.date.data).get? 1 with
      | none => rw [hget] at h; simp at h
      | some part =>
        rw [hget] at h
        dsimp only at h
        cases hm : parseIntPy part with
        | none => rw [hm] at h; simp at h
        | some m =>
          rw [hm] at h
          simp at h
          subst h
          have hpart : part ∈ splitOnCharL '-' r.date.data := List.get?_mem hget
          have hm0 : (0:ℤ) ≤ m :=
            parseIntPy_nonneg (splitOnCharL_not_mem '-' _ part hpart) hm
          have hm0q : (0:ℚ) ≤ (m:ℚ) := by exact_mod_cast hm0
          have hterm : 0 ≤ (m:ℚ)/12*(1/10) :=
            mul_nonneg (div_nonneg hm0q (by norm_num)) (by norm_num)
          exact pyMin_one_bounds (by linarith)
    · rw [if_neg hdash] at h
      simp at h
      subst h
      have hterm : (0:ℚ) ≤ ((1:ℤ):ℚ)/12*(1/10) := by norm_num
      exact pyMin_one_bounds (by linarith)
  · rw [if_neg h2024] at h
    simp at h
    subst h
    exact pyMin_one_bounds (by linarith)

/-- C4: from a context whose records all carry a retrieval confidence in
[0, 1], every produced citation confidence lies in [0, 1], the produced
list is non-increasing in confidence, and it is the stable descending sort
of the in-order built citations: citations of equal confidence keep their
original relative order (the filter at each confidence value is unchanged).
The some-hypothesis restricts the claim to lists the stage actually
produces; a raising record yields none and no list. -/
theorem citations_bounds_sorted_stable :
    ∀ (q : String) (ctx : Ctx) (cites : List Citation),
      createCitations q ctx = some cites →
      (∀ r ∈ ctx.records, ∃ c, r.confidence = some c ∧ 0 ≤ c ∧ c ≤ 1) →
      (∀ ci ∈ cites, 0 ≤ ci.confidence ∧ ci.confidence ≤ 1)
      ∧ cites.Pairwise (fun a b => b.confidence ≤ a.confidence)
      ∧ ∃ raw, mapOptionAll (buildCitation q) ctx.records = some raw
          ∧ cites = isortDescBy (·.confidence) raw
          ∧ ∀ x : ℚ, cites.filter (fun ci => ci.confidence == x)
              = raw.filter (fun ci => ci.confidence == x) := by
  intro q ctx cites hsome hconf
  unfold createCitations at hsome
  cases hraw : mapOptionAll (buildCitation q) ctx.records with
  | none => rw [hraw] at hsome; simp at hsome
  | some raw =>
    rw [hraw] at hsome
    simp at hsome
    subst hsome
    refine ⟨?_, isortDescBy_pairwise _ _, raw, rfl, rfl, ?_⟩
    · intro ci hci
      have hciraw : ci ∈ raw := mem_isortDescBy _ hci
      obtain ⟨r, hr, hbc⟩ := mapOptionAll_mem hraw ci hciraw
      unfold buildCitation at hbc
      cases hcalc : calcConfidence r q with
      | none => rw [hcalc] at hbc; simp at hbc
      | some v =>
        rw [hcalc] at hbc
        simp at hbc
        obtain ⟨c, hc, hc0, hc1⟩ := hconf r hr
        have hb0 : 0 ≤ baseConfidence r := by
          unfold baseConfidence
          rw [hc]
          simpa using hc0
        have hv := calcConfidence_bounds hb0 hcalc
        have hconfci : ci.confidence = pyRound2 v := by
          rw [← hbc]
        rw [hconfci]
        exact pyRound2_bounds hv.1 hv.2
    · intro x
      exact isortDescBy_filter (·.confidence) (fun ci => ci.confidence == x)
        (fun a b ha hb => (beq_iff_eq.mp ha).trans (beq_iff_eq.mp hb).symm) raw

def c4Rec : MedRecord := { confidence := some (1/2), date := "2024-01-02" }

def c4Ctx : Ctx :=
  { context_summary := "", total_records := 1, records := [c4Rec], key_findings := [] }

def c4Cite : Citation :=
  { source_id := "unknown", patient_id := "", patient_name := "", date := "2024-01-02",
    record_type := "", text := "", confidence := 51/100 }

theorem c4_eval : createCitations "q" c4Ctx = some [c4Cite] := by
  simp +decide [createCitations, mapOptionAll, buildCitation, calcConfidence, baseConfidence,
    relevanceBoost, optTruthy, splitOnCharL, parseIntPy, pyStripL, allDigits, digitsToNat,
    extractRelevantSnippet, splitSentencesPy, keyTerms, searchDescPy, isortDescBy, insDescBy,
    pyIsWs, c4Rec, c4Ctx, c4Cite, containsSubL]
  norm_num [pyMin, pyRound2]

/-- C4 witness: the instance at a concrete one-record context. -/
theorem citations_bounds_sorted_stable_witness :
    0 ≤ c4Cite.confidence ∧ c4Cite.confidence ≤ 1 := by
  have hconf : ∀ r ∈ c4Ctx.records, ∃ c, r.confidence = some c ∧ 0 ≤ c ∧ c ≤ 1 := by
    intro r hr
    have hr1 : r = c4Rec := by simpa [c4Ctx] using hr
    subst hr1
    exact ⟨1/2, rfl, by norm_num, by norm_num⟩
  exact (citations_bounds_sorted_stable "q" c4Ctx [c4Cite] c4_eval hconf).1
    c4Cite (List.mem_cons_self _ _)

/-! ## Claim C6: the patient finding keys on names, not ids -/

/-- First record of the C6 counterexample. -/
def c6RecA : MedRecord := { patient_id := "P001", patient_name := "John", date := "2024-01-02" }

/-- Second record of the C6 counterexample: same patient id, different
display name. -/
def c6RecB : MedRecord := { patient_id := "P001", patient_name := "Johnny", date := "2024-01-01" }

/-- C6 counterexample: two records share one patient id but differ in
display name; the key findings end with the distinct-patient count, not
the single-patient finding the claim requires. -/
theorem findings_use_names_counterexample :
    c6RecA.patient_id = c6RecB.patient_id ∧
    (buildContext "q" [c6RecA, c6RecB] "GENERAL").key_findings
      = ["Records from 2 patient(s)"] := by
  refine ⟨rfl, ?_⟩
  simp +decide [buildContext, sortByDate, parseDatePy, splitOnCharL, allDigits, digitsToNat,
    daysInMonth, isortDescBy, insDescBy, dateKeyQ, extractKeyFindings, cleanValues,
    c6RecA, c6RecB]

/-- C6 amended: for every non-empty record list and category the key
findings are non-empty and end with the single-patient finding when all
records share one patient display name, otherwise with the distinct
display-name count. -/
theorem findings_last_names_amended :
    ∀ (q : String) (records : List MedRecord) (category : String),
      records ≠ [] →
      (buildContext q records category).key_findings ≠ []
      ∧ ((buildContext q records category).key_findings).getLast?
        = some (
          if ((records.map (·.patient_name)).dedup).length = 1 then
            "All records for patient: " ++ ((records.map (·.patient_name)).dedup).headD ""
          else
            "Records from " ++ toString ((records.map (·.patient_name)).dedup).length
              ++ " patient(s)") := by
  intro q records category hne
  cases records with
  | nil => exact absurd rfl hne
  | cons r rs =>
    simp only [buildContext]
    have hperm : (sortByDate (r :: rs)).Perm (r :: rs) := by
      unfold sortByDate
      split
      · exact isortDescBy_perm _ _
      · exact List.Perm.refl _
    have hdedup : ((sortByDate (r :: rs)).map (·.patient_name)).dedup.Perm
        (((r :: rs).map (·.patient_name)).dedup) := (hperm.map _).dedup
    have hlen := hdedup.length_eq
    unfold extractKeyFindings
    constructor
    · simp
    · rw [List.getLast?_concat]
      congr 1
      rw [hlen]
      by_cases hone : (((r :: rs).map (·.patient_name)).dedup).length = 1
      · rw [if_pos hone, if_pos hone]
        obtain ⟨a, ha⟩ := List.length_eq_one.mp hone
        have hsing : ((sortByDate (r :: rs)).map (·.patient_name)).dedup = [a] := by
          rw [← List.perm_singleton]
          rw [← ha]
          exact hdedup
        rw [hsing, ha]
      · rw [if_neg hone, if_neg hone]

/-- Record for the C6 witness. -/
def c6RecW : MedRecord := { patient_id := "P009", patient_name := "John", date := "2024-01-01" }

/-- C6 witness: a singleton list produces the single-patient finding. -/
theorem findings_last_names_amended_witness :
    ((buildContext "q" [c6RecW] "GENERAL").key_findings).getLast?
      = some "All records for patient: John" := by
  have h := (findings_last_names_amended "q" [c6RecW] "GENERAL" (by simp)).2
  exact h.trans (by decide)

/-! ## Claim C7: answer post-processing -/

theorem findIdx?_ge_start (p : α → Bool) :
    ∀ (l : List α) (i : Nat) {j : Nat}, List.findIdx? p l i = some j → i ≤ j := by
  intro l
  induction l with
  | nil => intro i j h; simp [List.findIdx?] at h
  | cons x xs ih =>
    intro i j h
    rw [List.findIdx?_cons] at h
    by_cases hp : p x = true
    · rw [if_pos hp] at h
      obtain rfl := Option.some.inj h
      exact le_refl i
    · rw [if_neg hp] at h
      exact le_trans (Nat.le_succ i) (ih (i + 1) h)

theorem findIdx?_or (p q : α → Bool) :
    ∀ (l : List α) (i : Nat),
      List.findIdx? (fun c => p c || q c) l i
        = match List.findIdx? p l i, List.findIdx? q l i with
          | none, none => none
          | some a, none => some a
          | none, some b => some b
          | some a, some b => some (min a b) := by
  intro l
  induction l with
  | nil => intro i; rfl
  | cons x xs ih =>
    intro i
    rw [List.findIdx?_cons, List.findIdx?_cons, List.findIdx?_cons]
    by_cases hp : p x = true
    · by_cases hq : q x = true
      · simp [hp, hq]
      · cases hqx : List.findIdx? q xs (i + 1) with
        | none => simp [hp, hq, hqx]
        | some b =>
          have hb := findIdx?_ge_start q xs (i + 1) hqx
          simp [hp, hq, hqx]
          omega
    · by_cases hq : q x = true
      · cases hpx : List.findIdx? p xs (i + 1) with
        | none => simp [hp, hq, hpx]
        | some a =>
          have ha := findIdx?_ge_start p xs (i + 1) hpx
          simp [hp, hq, hpx]
          omega
      · simp only [hp, hq, Bool.or_false, if_neg, Bool.false_eq_true, not_false_eq_true]
        exact ih (i + 1)

theorem findIdx?_lt_length {p : α → Bool} {l : List α} {j : Nat}
    (h : List.findIdx? p l = some j) : j < l.length :=
  (List.findIdx?_eq_some_iff_findIdx_eq.mp h).1

theorem rfindP_or (p q : Char → Bool) (l : List Char) :
    max (rfindP p l) (rfindP q l) = rfindP (fun c => p c || q c) l := by
  unfold rfindP
  rw [findIdx?_or p q l.reverse 0]
  cases hp : l.reverse.findIdx? p with
  | none =>
    cases hq : l.reverse.findIdx? q with
    | none => simp
    | some b =>
      have hb : b < l.length := by
        have := findIdx?_lt_length hq
        simpa using this
      simp
      omega
  | some a =>
    have ha : a < l.length := by
      have := findIdx?_lt_length hp
      simpa using this
    cases hq : l.reverse.findIdx? q with
    | none =>
      simp
      omega
    | some b =>
      have hb : b < l.length := by
        have := findIdx?_lt_length hq
        simpa using this
      simp
      omega

example : (fun c : Char => c == '.' || c == '!' || c == '?')
    = fun c => ((c == '.') || (c == '!')) || (c == '?') := rfl

theorem rfind_max3_eq_lastTermIdx (l : List Char) :
    max (max (rfindPy '.' l) (rfindPy '!' l)) (rfindPy '?' l)
      = (match lastTermIdx l with
         | some i => (i : Int)
         | none => -1) := by
  unfold rfindPy
  rw [rfindP_or, rfindP_or]
  have hfun : (fun c => (fun c => c == '.' || c == '!') c || c == '?')
      = isTermPunct := by
    funext c
    rfl
  rw [hfun]
  unfold rfindP lastTermIdx
  cases hidx : l.reverse.findIdx? isTermPunct with
  | none => rfl
  | some j =>
    have hj : j < l.length := by
      have := findIdx?_lt_length hidx
      simpa using this
    simp
    rw [Nat.sub_sub, Nat.cast_sub (by omega)]
    push_cast
    ring

theorem lastTermIdx_lt_length {l : List Char} {i : Nat}
    (h : lastTermIdx l = some i) : i < l.length := by
  unfold lastTermIdx at h
  cases hidx : l.reverse.findIdx? isTermPunct with
  | none => rw [hidx] at h; exact absurd h (by simp)
  | some j =>
    rw [hidx] at h
    obtain rfl := Option.some.inj h
    have hj : j < l.length := by
      have := findIdx?_lt_length hidx
      simpa using this
    omega

theorem truncCode_eq_truncSpec (l : List Char) : truncCode l = truncSpec l := by
  unfold truncCode truncSpec
  cases hlast : l.getLast? with
  | none => rfl
  | some last =>
    dsimp only
    by_cases hterm : isTermPunct last = true
    · rw [if_pos hterm, if_pos hterm]
    · rw [if_neg hterm, if_neg hterm]
      rw [rfind_max3_eq_lastTermIdx l]
      cases hidx : lastTermIdx l with
      | none =>
        dsimp only
        rw [if_neg (by omega)]
      | some i =>
        dsimp only
        have hi := lastTermIdx_lt_length hidx
        by_cases hcut : l.length < 2 * i
        · rw [if_pos (by omega), if_pos hcut]
          congr 1
        · rw [if_neg (by omega), if_neg hcut]

theorem splitOnPatL_flatten (pat : List Char) :
    ∀ (l : List Char), (splitOnPatL pat l).flatten = pyReplaceDel pat l := by
  intro l
  induction l using pyReplaceDel.induct pat with
  | case1 => simp [splitOnPatL, pyReplaceDel]
  | case2 c cs hpre ih =>
    rw [splitOnPatL, pyReplaceDel, if_pos hpre, if_pos hpre]
    simpa using ih
  | case3 c cs hpre ih =>
    rw [splitOnPatL, pyReplaceDel, if_neg hpre, if_neg hpre]
    cases hrec : splitOnPatL pat cs with
    | nil =>
      rw [hrec] at ih
      simp at ih
      dsimp only
      simp [← ih]
    | cons hd tl =>
      rw [hrec] at ih
      dsimp only
      simp only [List.flatten_cons] at ih ⊢
      rw [← ih]
      simp

/-- C7 counterexample: the claim says only leading artifact phrases are
stripped and occurrences elsewhere are preserved; str.replace deletes the
interior occurrence too. -/
theorem clean_answer_strips_everywhere_counterexample :
    cleanAnswer "The Answer: is aspirin" = "The  is aspirin" ∧
    "The  is aspirin" ≠ "The Answer: is aspirin" := by
  constructor
  · simp +decide [cleanAnswer, cleanAnswerL, pyStripL, pyReplaceDel, truncCode,
      rfindPy, rfindP, pyIsWs, pyIsLower, pyToUpperChar, isTermPunct]
  · decide

/-- C7 amended: post-processing trims whitespace, deletes every
left-to-right non-overlapping occurrence of "Answer:" and of
"Based on the evidence:" (each deletion pass followed by a trim),
capitalizes a lower-case first letter, and when the text does not end in
terminal punctuation truncates back to the last '.', '!' or '?' provided
that index strictly exceeds half the length, else leaves the text
untruncated.  Stated as equality with an independently phrased
specification pipeline (split-and-join deletion, last-index search). -/
theorem clean_answer_amended : ∀ s : String, cleanAnswer s = ⟨cleanSpec s.data⟩ := by
  intro s
  simp only [cleanAnswer, cleanAnswerL, cleanSpec, capSpec, splitOnPatL_flatten,
    truncCode_eq_truncSpec]

/-! ## Claim C1: retrieval deduplication -/

/-- First vector hit of the C1 counterexample. -/
def c1HitA : VHit := { id := "a", patient_id := some "P1", date := some "2024-01-01" }

/-- Second vector hit of the C1 counterexample: same patient and date. -/
def c1HitB : VHit := { id := "b", patient_id := some "P1", date := some "2024-01-01" }

/-- C1 counterexample: two vector hits with the same (patient id, date)
both survive retrieval, contradicting the claim that no two entries of the
returned list share the pair even when both came from vector search.  The
dedup check only guards patient-filter additions. -/
theorem retrieve_vector_duplicates_counterexample :
    (retrieve "q" none 5 [c1HitA, c1HitB] []).map
        (fun r => (r.patient_id, r.date, r.search_method))
      = [("P1", "2024-01-01", "vector"), ("P1", "2024-01-01", "vector")] := by
  norm_num [retrieve, vecRecord, isortDescBy, insDescBy, c1HitA, c1HitB, max_def]

/-- C1 amended: in every Candidate List returned by retrieve, any two
entries sharing the same (patient id, date) pair both carry the "vector"
provenance; equivalently no patient_filter entry ever shares its pair with
any other entry, across or within search methods. -/
theorem retrieve_dup_only_vector_amended :
    ∀ (question : String) (patient_id : Option String) (top_k : Nat)
      (vhits : List VHit) (patientRows : List PatientRow),
      (retrieve question patient_id top_k vhits patientRows).Pairwise
        (fun a b => a.patient_id = b.patient_id ∧ a.date = b.date →
          a.search_method = "vector" ∧ b.search_method = "vector") := by
  intro question patient_id top_k vhits patientRows
  have hsymm : ∀ {x y : MedRecord},
      (x.patient_id = y.patient_id ∧ x.date = y.date →
        x.search_method = "vector" ∧ y.search_method = "vector") →
      (y.patient_id = x.patient_id ∧ y.date = x.date →
        y.search_method = "vector" ∧ x.search_method = "vector") := by
    intro x y h ⟨h1, h2⟩
    obtain ⟨hx, hy⟩ := h ⟨h1.symm, h2.symm⟩
    exact ⟨hy, hx⟩
  unfold retrieve
  dsimp only
  set vres := (vhits.filter (fun h =>
    match patient_id with
    | some p => h.patient_id == some p
    | none => true)).map vecRecord with hvres
  have hvec : ∀ r ∈ vres, r.search_method = "vector" := by
    intro r hr
    obtain ⟨h, _, rfl⟩ := List.mem_map.mp hr
    rfl
  have hP : vres.Pairwise (fun a b => a.patient_id = b.patient_id ∧ a.date = b.date →
      a.search_method = "vector" ∧ b.search_method = "vector") :=
    List.pairwise_of_forall_mem_list (fun a ha b hb _ => ⟨hvec a ha, hvec b hb⟩)
  have hfold : ∀ (rows : List PatientRow) (acc : List MedRecord),
      acc.Pairwise (fun a b => a.patient_id = b.patient_id ∧ a.date = b.date →
        a.search_method = "vector" ∧ b.search_method = "vector") →
      (rows.foldl (fun (acc : List MedRecord) (row : PatientRow) =>
        if acc.any (fun r => r.patient_id == row.f1 && r.date == row.f3) then acc
        else acc ++ [pfRecord row]) acc).Pairwise
        (fun a b => a.patient_id = b.patient_id ∧ a.date = b.date →
          a.search_method = "vector" ∧ b.search_method = "vector") := by
    intro rows
    induction rows with
    | nil => intro acc h; exact h
    | cons row rest ih =>
      intro acc h
      rw [List.foldl_cons]
      apply ih
      by_cases hany : (acc.any fun r => r.patient_id == row.f1 && r.date == row.f3) = true
      · rw [if_pos hany]
        exact h
      · rw [if_neg hany]
        rw [List.pairwise_append]
        refine ⟨h, List.pairwise_singleton _ _, ?_⟩
        intro a ha b hb
        obtain rfl : b = pfRecord row := by simpa using hb
        intro hshare
        exfalso
        apply hany
        rw [List.any_eq_true]
        refine ⟨a, ha, ?_⟩
        rw [Bool.and_eq_true, beq_iff_eq, beq_iff_eq]
        exact ⟨hshare.1, hshare.2⟩
  have hres : (match patient_id with
      | some _ =>
        (patientRows.take 3).foldl (fun (acc : List MedRecord) (row : PatientRow) =>
          if acc.any (fun r => r.patient_id == row.f1 && r.date == row.f3) then acc
          else acc ++ [pfRecord row]) vres
      | none => vres).Pairwise
      (fun (a b : MedRecord) => a.patient_id = b.patient_id ∧ a.date = b.date →
        a.search_method = "vector" ∧ b.search_method = "vector") := by
    cases patient_id with
    | none => exact hP
    | some p => exact hfold (patientRows.take 3) vres hP
  have hsorted := ((isortDescBy_perm (fun r : MedRecord => r.confidence.getD 0)
    _).pairwise_iff hsymm).mpr hres
  exact hsorted.sublist (List.take_sublist top_k _)
